import Mathlib

/-!
Verification of the contribution-graph filler (`src/index.js`).

Modelling conventions for the shallow embedding:

* Calendar dates are modelled at date-only granularity as day indices
  (`Nat`): `d + 1` is the calendar day after `d`, matching
  `date.setDate(date.getDate() + 1)` / `target.setDate(... + week*7 + day)`.
  The ISO rendering `toISOString().slice(0, 10)` is modelled by `isoOfDay`,
  an injective rendering of the day index.
* JavaScript strings are modelled as `String`; pattern-grid rows are modelled
  as `List Char` (a JS string indexed character by character).
  `toUpperCase` / `toLowerCase` / `startsWith` are modelled by computable
  functions on `String.data`.
* `Math.random()` is modelled as a stream of rationals consumed one value per
  call (`Rng`); validity (`ValidStream`) states every draw lies in `[0, 1)`.
* The durable state touched by `makeCommit` — the appended-to activity file
  and the git history — is modelled by `RepoState`; a commit records its
  message together with the author and committer timestamp overrides
  (`GIT_AUTHOR_DATE` / `GIT_COMMITTER_DATE`).
* `console.error` output and `process.exit` codes are modelled by `Outcome`;
  a run that reaches the end of `main` has exit code 0.
* `CONFIG.COMMIT_MESSAGE` is fixed to its default template; the two
  `.replace` calls are modelled by direct interpolation of `n` and the date.
-/

/-- A pattern grid: rows of characters, row 0 = Sunday. -/
abbrev Grid := List (List Char)

/-- Pseudo-random source: the successive values of `Math.random()`. -/
structure Rng where
  stream : Nat → ℚ
  idx : Nat

/-- Draw the next random value and advance the source. -/
def Rng.next (g : Rng) : ℚ × Rng := (g.stream g.idx, ⟨g.stream, g.idx + 1⟩)

/-- Every value of the stream lies in `[0, 1)`, as `Math.random` guarantees. -/
def ValidStream (f : Nat → ℚ) : Prop := ∀ i, 0 ≤ f i ∧ f i < 1

/-- Embeds `randomInt(min, max)`:
`Math.floor(Math.random() * (max - min + 1)) + min`. -/
def randomInt (g : Rng) (lo hi : ℤ) : ℤ × Rng :=
  let p := g.next
  (⌊p.1 * ((hi : ℚ) - (lo : ℚ) + 1)⌋ + lo, p.2)

/-- Content of the `"YYYY-MM-DD HH:MM:SS"` string built by `formatGitDate`,
at date-index granularity. -/
structure Timestamp where
  day : Nat
  hour : ℤ
  minute : ℤ
  second : ℤ
deriving DecidableEq

/-- Embeds `formatGitDate(date)`: the date plus a random time with
hour in `[9, 21]` and minute, second in `[0, 59]`. -/
def formatGitDate (g : Rng) (date : Nat) : Timestamp × Rng :=
  let h := randomInt g 9 21
  let m := randomInt h.2 0 59
  let s := randomInt m.2 0 59
  (⟨date, h.1, m.1, s.1⟩, s.2)

/-- Models `current.toISOString().slice(0, 10)`: an injective rendering of
the day index (the calendar arithmetic itself is carried by the index). -/
def isoOfDay (d : Nat) : String := toString d

/-- One line of the activity file: `makeCommit` appends
the text `message  |  dateStr` followed by a newline. -/
structure ActivityLine where
  message : String
  dateStr : Timestamp
deriving DecidableEq

/-- One git commit with its timestamp overrides. -/
structure Commit where
  message : String
  authorDate : Timestamp
  committerDate : Timestamp
deriving DecidableEq

/-- The durable state: the tracked activity file and the git history. -/
structure RepoState where
  activityFile : List ActivityLine
  commits : List Commit
deriving DecidableEq

/-- Calendar day a commit is attributed to (its author-date day). -/
def authorDay (cm : Commit) : Nat := cm.authorDate.day

/-- Embeds `makeCommit(dateStr, message)`: append one line to the activity
file so the diff is non-empty, stage that file, and commit with both
`GIT_AUTHOR_DATE` and `GIT_COMMITTER_DATE` set to `dateStr`. -/
def makeCommit (dateStr : Timestamp) (message : String) (st : RepoState) : RepoState :=
  { activityFile := st.activityFile ++ [⟨message, dateStr⟩]
    commits := st.commits ++ [⟨message, dateStr, dateStr⟩] }

/-- Embeds the generator `dayRange(startISO, endISO)`: while `current ≤ end`,
yield `current` and advance by one calendar day. -/
def dayRange (current endD : Nat) : List Nat :=
  if _h : current ≤ endD then current :: dayRange (current + 1) endD else []
termination_by endD + 1 - current
decreasing_by omega

/-- The `H` glyph from `PATTERNS`. -/
def patH : Grid :=
  [("#.#").toList, ("#.#").toList, ("#.#").toList, ("###").toList,
   ("#.#").toList, ("#.#").toList, ("#.#").toList]

/-- The `I` glyph from `PATTERNS`. -/
def patI : Grid :=
  [("###").toList, (".#.").toList, (".#.").toList, (".#.").toList,
   (".#.").toList, (".#.").toList, ("###").toList]

/-- The `HEART` glyph from `PATTERNS`. -/
def patHEART : Grid :=
  [(".#.#.").toList, ("#####").toList, ("#####").toList, (".###.").toList,
   (".###.").toList, ("..#..").toList, ("..#..").toList]

/-- The `SMILE` glyph from `PATTERNS`. -/
def patSMILE : Grid :=
  [("..##..").toList, (".#..#.").toList, ("#.##.#").toList, ("#....#").toList,
   ("#.##.#").toList, (".#..#.").toList, ("..##..").toList]

/-- The spacer of `combinePatterns`: an array of seven one-character rows. -/
def spacer : Grid := [['.'], ['.'], ['.'], ['.'], ['.'], ['.'], ['.']]

/-- The `parts` array built by the `forEach` in `combinePatterns`: the
letters with one spacer pushed before every letter but the first. -/
def combineParts (letters : List Grid) : List Grid :=
  match letters with
  | [] => []
  | l :: ls => l :: ls.flatMap (fun x => [spacer, x])

/-- Embeds `combinePatterns(...letters)`: rows 0–6 of the result are the
concatenation of the corresponding row of every part
(`Array.from({length: 7}, (_, row) => parts.map(p => p[row]).join(""))`;
a missing row — JS `undefined` — contributes the empty string to `join`). -/
def combinePatterns (letters : List Grid) : Grid :=
  (List.range 7).map (fun row =>
    ((combineParts letters).map (fun p => p.getD row [])).flatten)

/-- The compound `HI` pattern: `PATTERNS.HI = combinePatterns(H, I)`. -/
def patHI : Grid := combinePatterns [patH, patI]

/-- Key order of the `PATTERNS` object (`Object.keys`). -/
def patternKeys : List String := ["H", "I", "HEART", "SMILE", "HI"]

/-- Embeds the `PATTERNS` lookup `PATTERNS[patternName]`. -/
def PATTERNS (name : String) : Option Grid :=
  if name = "H" then some patH
  else if name = "I" then some patI
  else if name = "HEART" then some patHEART
  else if name = "SMILE" then some patSMILE
  else if name = "HI" then some patHI
  else none

/-- Character of the grid cell at row `day`, column `week`
(`pattern[day][week]`); out-of-range access (JS `undefined`) is modelled by
a default that is never the lit marker. -/
def cellChar (pattern : Grid) (day week : Nat) : Char :=
  (pattern.getD day []).getD week ' '

/-- JS array indexing `l[i]`: `undefined` (for an out-of-range or negative
index) is modelled as `none`. -/
def jsGet (l : List String) (i : ℤ) : Option String :=
  if i < 0 then none else l[i.toNat]?

/-- JS `x || d` for `x` a possibly-undefined string: `undefined` and the
empty string are falsy. -/
def jsOr (o : Option String) (d : String) : String :=
  match o with
  | some s => if s = "" then d else s
  | none => d

/-- JS `Array.prototype.indexOf`: the first index of `x`, or `-1`. -/
def jsIndexOf (l : List String) (x : String) : ℤ :=
  match l.findIdx? (fun a => a == x) with
  | some i => (i : ℤ)
  | none => -1

/-- JS `String.prototype.toUpperCase` on the modelled character data. -/
def jsToUpper (s : String) : String := ⟨s.data.map Char.toUpper⟩

/-- JS `String.prototype.toLowerCase` on the modelled character data. -/
def jsToLower (s : String) : String := ⟨s.data.map Char.toLower⟩

/-- JS `String.prototype.startsWith`. -/
def jsStartsWith (s p : String) : Bool := s.data.take p.data.length == p.data

/-- The static `CONFIG` object (dates at day-index granularity). -/
structure Config where
  START_DATE : Nat
  END_DATE : Nat
  MIN_COMMITS_PER_DAY : ℤ
  MAX_COMMITS_PER_DAY : ℤ
  PATTERN_START_DATE : Nat
  PATTERN_COMMITS : Nat

/-- Observable result of a run: final durable state, process exit code and
`console.error` output. -/
structure Outcome where
  state : RepoState
  exitCode : Nat
  stderr : List String
deriving DecidableEq

/-- The inner commit loop of `runFillMode`
(`for n = 1..numCommits: makeCommit(formatGitDate(date), message)`),
counting down the remaining commits while `n` counts up from 1. -/
def fillCommitLoop (day : Nat) : Nat → Nat → Rng → RepoState → RepoState × Rng
  | 0, _, g, st => (st, g)
  | count + 1, n, g, st =>
      let p := formatGitDate g day
      let message := "Activity update #" ++ toString n ++ " on " ++ isoOfDay day
      fillCommitLoop day count (n + 1) p.2 (makeCommit p.1 message st)

/-- The day loop of `runFillMode`: one `randomInt(min, max)` draw per day,
then that many commits. -/
def fillDays (lo hi : ℤ) : List Nat → Rng → RepoState → RepoState × Rng
  | [], g, st => (st, g)
  | d :: ds, g, st =>
      let p := randomInt g lo hi
      let q := fillCommitLoop d p.1.toNat 1 p.2 st
      fillDays lo hi ds q.2 q.1

/-- Embeds `runFillMode()`: iterate `dayRange(START_DATE, END_DATE)`. -/
def runFillMode (cfg : Config) (g : Rng) (st : RepoState) : RepoState × Rng :=
  fillDays cfg.MIN_COMMITS_PER_DAY cfg.MAX_COMMITS_PER_DAY
    (dayRange cfg.START_DATE cfg.END_DATE) g st

/-- The inner commit loop of `runPatternMode`
(`for n = 0..PATTERN_COMMITS-1`), counting down the remaining commits while
`n` counts up from 0; the message embeds the sequence number `n + 1`. -/
def patternCommitLoop (name : String) (target : Nat) :
    Nat → Nat → Rng → RepoState → RepoState × Rng
  | 0, _, g, st => (st, g)
  | count + 1, n, g, st =>
      let p := formatGitDate g target
      let message :=
        "Pattern \"" ++ name ++ "\" commit #" ++ toString (n + 1) ++
          " on " ++ isoOfDay target
      patternCommitLoop name target count (n + 1) p.2 (makeCommit p.1 message st)

/-- Body of the two nested cell loops of `runPatternMode`: skip a cell whose
character is not `'#'`, otherwise commit `c` times on
`start + (week * 7 + day)`. -/
def patternCellStep (name : String) (startD c : Nat) (pattern : Grid)
    (week day : Nat) (s : RepoState × Rng) : RepoState × Rng :=
  if cellChar pattern day week = '#' then
    patternCommitLoop name (startD + (week * 7 + day)) c 0 s.2 s.1
  else s

/-- The nested loops of `runPatternMode`: `week` over
`0 .. pattern[0].length - 1`, `day` over `0 .. 6`. -/
def runPatternLoops (name : String) (startD c : Nat) (pattern : Grid)
    (g : Rng) (st : RepoState) : RepoState × Rng :=
  (List.range (pattern.headD []).length).foldl
    (fun s week =>
      (List.range 7).foldl
        (fun s2 day => patternCellStep name startD c pattern week day s2) s)
    (st, g)

/-- Embeds `runPatternMode()`: resolve `(process.argv[3] || "HI").toUpperCase()`,
fail fast on an unknown pattern, otherwise run the cell loops. -/
def runPatternMode (argv : List String) (cfg : Config) (g : Rng)
    (st : RepoState) : Outcome :=
  let patternName := jsToUpper (jsOr (jsGet argv 3) "HI")
  match PATTERNS patternName with
  | none =>
      { state := st, exitCode := 1
        stderr := ["Unknown pattern \"" ++ patternName ++ "\".",
                   "Available: " ++ String.intercalate ", " patternKeys] }
  | some pattern =>
      { state := (runPatternLoops patternName cfg.PATTERN_START_DATE
          cfg.PATTERN_COMMITS pattern g st).1
        exitCode := 0, stderr := [] }

/-- Embeds the mode parsing of `main()`:
`modeFlag = argv.find(a => a.startsWith("--mode"))`,
`modeArg = argv[argv.indexOf("--mode") + 1]`,
`mode = modeFlag ? (modeArg || "fill").toLowerCase() : "fill"`. -/
def modeOf (argv : List String) : String :=
  match argv.find? (fun a => jsStartsWith a "--mode") with
  | some _ => jsToLower (jsOr (jsGet argv (jsIndexOf argv "--mode" + 1)) "fill")
  | none => "fill"

/-- Embeds the `switch` of `main()` and the final exit: mode `fill` or
`pattern` dispatches to its driver, anything else reports the unknown mode
on stderr and exits 1. -/
def mainRun (argv : List String) (cfg : Config) (g : Rng)
    (st : RepoState) : Outcome :=
  let mode := modeOf argv
  if mode = "fill" then
    { state := (runFillMode cfg g st).1, exitCode := 0, stderr := [] }
  else if mode = "pattern" then
    runPatternMode argv cfg g st
  else
    { state := st, exitCode := 1
      stderr := ["Unknown mode \"" ++ mode ++ "\". Use \"fill\" or \"pattern\"."] }

/-- Dates issued by the pattern loops, cell by cell in loop order, `c` copies
per lit cell. -/
def planDays (pattern : Grid) (startD c : Nat) : List Nat :=
  (List.range (pattern.headD []).length).flatMap (fun week =>
    (List.range 7).flatMap (fun day =>
      if cellChar pattern day week = '#'
      then List.replicate c (startD + (week * 7 + day)) else []))

/-- Number of lit cells of a grid. -/
def litCount (pattern : Grid) : Nat :=
  (pattern.map (fun row => row.count '#')).sum

/-! ### Day sequencer -/

/-- The while loop of `dayRange` enumerates `current, current+1, …, endD`. -/
theorem dayRange_eq_range' (c e : Nat) :
    dayRange c e = List.range' c (e + 1 - c) := by
  generalize hn : e + 1 - c = n
  induction n generalizing c with
  | zero =>
    rw [dayRange]
    have hc : ¬ c ≤ e := by omega
    simp [hc]
  | succ k ih =>
    rw [dayRange]
    have hc : c ≤ e := by omega
    rw [dif_pos hc, List.range'_succ, ih (c + 1) (by omega)]

/-- An inverted range is empty. -/
theorem dayRange_nil (c e : Nat) (h : e < c) : dayRange c e = [] := by
  rw [dayRange_eq_range']
  have : e + 1 - c = 0 := by omega
  rw [this, List.range']

/-- C1: for every valid range (start ≤ end), `dayRange` yields exactly
`end − start + 1` dates, the `i`-th being `start + i` (so consecutive dates
differ by exactly one calendar day), the first being the start date and the
last being the end date. -/
theorem dayRange_valid_spec (s e : Nat) (hse : s ≤ e) :
    (dayRange s e).length = e - s + 1 ∧
    (∀ i, i < e - s + 1 → (dayRange s e)[i]? = some (s + i)) ∧
    (dayRange s e).head? = some s ∧
    (dayRange s e).getLast? = some e := by
  have h := dayRange_eq_range' s e
  have hn : e + 1 - s = e - s + 1 := by omega
  rw [hn] at h
  refine ⟨by rw [h]; exact List.length_range' .., ?_, ?_, ?_⟩
  · intro i hi
    rw [h]
    have hlen : i < (List.range' s (e - s + 1)).length := by
      rwa [List.length_range']
    rw [List.getElem?_eq_getElem hlen, List.getElem_range']
    simp
  · rw [h, List.range'_succ, List.head?_cons]
  · rw [h, List.range'_concat, List.getLast?_concat]
    congr 1
    omega

/-- Witness for C1 at the concrete range 3‥5. -/
theorem dayRange_valid_spec_witness :
    3 ≤ 5 ∧
    ((dayRange 3 5).length = 5 - 3 + 1 ∧
     (∀ i, i < 5 - 3 + 1 → (dayRange 3 5)[i]? = some (3 + i)) ∧
     (dayRange 3 5).head? = some 3 ∧
     (dayRange 3 5).getLast? = some 5) :=
  ⟨by decide, dayRange_valid_spec 3 5 (by decide)⟩

/-! ### Commit writer -/

/-- C4: `makeCommit` appends exactly one line (derived from the message and
the timestamp) to the activity file, stages it, and creates exactly one
commit whose author and committer timestamps both equal the given
timestamp. -/
theorem makeCommit_spec (ts : Timestamp) (m : String) (st : RepoState) :
    (makeCommit ts m st).activityFile = st.activityFile ++ [⟨m, ts⟩] ∧
    (makeCommit ts m st).activityFile.length = st.activityFile.length + 1 ∧
    (makeCommit ts m st).commits = st.commits ++ [⟨m, ts, ts⟩] ∧
    ∀ cm ∈ (makeCommit ts m st).commits, cm ∈ st.commits ∨
      (cm.authorDate = ts ∧ cm.committerDate = ts ∧ cm.message = m) := by
  refine ⟨rfl, by simp [makeCommit], rfl, ?_⟩
  intro cm hcm
  simp only [makeCommit, List.mem_append, List.mem_singleton] at hcm
  rcases hcm with h | h
  · exact Or.inl h
  · subst h
    exact Or.inr ⟨rfl, rfl, rfl⟩

/-! ### Pattern compiler -/

/-- Rows 0–6 of the spacer are single blank characters. -/
theorem spacer_getD (r : Nat) (hr : r < 7) : spacer.getD r [] = ['.'] := by
  interval_cases r <;> rfl

/-- A row of the two-grid combination is the first grid's row, one blank,
then the second grid's row. -/
theorem combinePatterns_two_row (g1 g2 : Grid) (r : Nat) (hr : r < 7) :
    (combinePatterns [g1, g2])[r]? =
      some (g1.getD r [] ++ '.' :: g2.getD r []) := by
  have hsp : spacer[r]? = some ['.'] := by interval_cases r <;> rfl
  unfold combinePatterns combineParts
  rw [List.getElem?_map, List.getElem?_range hr]
  simp [List.getD_eq_getElem?_getD, hsp]

/-- C5: combining two 7-row grids of widths `w1` and `w2` yields a 7-row grid
of width `w1 + 1 + w2`; the inserted column at index `w1` is entirely blank,
and the input columns are preserved left to right in composition order. -/
theorem combinePatterns_two_spec (g1 g2 : Grid) (w1 w2 : Nat)
    (hg1 : g1.length = 7) (hg2 : g2.length = 7)
    (h1 : ∀ r ∈ g1, r.length = w1) (h2 : ∀ r ∈ g2, r.length = w2) :
    (combinePatterns [g1, g2]).length = 7 ∧
    (∀ row ∈ combinePatterns [g1, g2], row.length = w1 + 1 + w2) ∧
    (∀ r, r < 7 → ((combinePatterns [g1, g2]).getD r [])[w1]? = some '.') ∧
    (∀ r j, r < 7 → j < w1 →
      ((combinePatterns [g1, g2]).getD r [])[j]? = (g1.getD r [])[j]?) ∧
    (∀ r j, r < 7 → j < w2 →
      ((combinePatterns [g1, g2]).getD r [])[w1 + 1 + j]? = (g2.getD r [])[j]?) := by
  have hw1 : ∀ r, r < 7 → (g1.getD r []).length = w1 := by
    intro r hr
    have hlt : r < g1.length := by omega
    rw [List.getD_eq_getElem _ _ hlt]
    exact h1 _ (List.getElem_mem hlt)
  have hw2 : ∀ r, r < 7 → (g2.getD r []).length = w2 := by
    intro r hr
    have hlt : r < g2.length := by omega
    rw [List.getD_eq_getElem _ _ hlt]
    exact h2 _ (List.getElem_mem hlt)
  have hrow : ∀ r, r < 7 →
      (combinePatterns [g1, g2]).getD r [] = g1.getD r [] ++ '.' :: g2.getD r [] := by
    intro r hr
    rw [List.getD_eq_getElem?_getD, combinePatterns_two_row g1 g2 r hr]
    rfl
  refine ⟨by simp [combinePatterns], ?_, ?_, ?_, ?_⟩
  · intro row hmem
    have hlen : (combinePatterns [g1, g2]).length = 7 := by simp [combinePatterns]
    obtain ⟨i, hi, heq⟩ := List.mem_iff_getElem.1 hmem
    have hi7 : i < 7 := by omega
    have h2r := combinePatterns_two_row g1 g2 i hi7
    rw [List.getElem?_eq_getElem hi] at h2r
    have hval : row = g1.getD i [] ++ '.' :: g2.getD i [] := by
      rw [← heq]
      exact Option.some.inj h2r
    rw [hval, List.length_append, List.length_cons, hw1 i hi7, hw2 i hi7]
    omega
  · intro r hr
    rw [hrow r hr, List.getElem?_append_right (by rw [hw1 r hr]),
      hw1 r hr, Nat.sub_self]
    simp
  · intro r j hr hj
    rw [hrow r hr, List.getElem?_append_left (by rw [hw1 r hr]; omega)]
  · intro r j hr hj
    rw [hrow r hr, List.getElem?_append_right (by rw [hw1 r hr]; omega), hw1 r hr]
    have hidx : w1 + 1 + j - w1 = j + 1 := by omega
    rw [hidx]
    simp

/-- Witness for C5 on the `H` and `I` glyphs (both of width 3). -/
theorem combinePatterns_two_spec_witness :
    (patH.length = 7 ∧ patI.length = 7 ∧
     (∀ r ∈ patH, r.length = 3) ∧ (∀ r ∈ patI, r.length = 3)) ∧
    ((combinePatterns [patH, patI]).length = 7 ∧
     (∀ row ∈ combinePatterns [patH, patI], row.length = 3 + 1 + 3) ∧
     (∀ r, r < 7 → ((combinePatterns [patH, patI]).getD r [])[3]? = some '.') ∧
     (∀ r j, r < 7 → j < 3 →
       ((combinePatterns [patH, patI]).getD r [])[j]? = (patH.getD r [])[j]?) ∧
     (∀ r j, r < 7 → j < 3 →
       ((combinePatterns [patH, patI]).getD r [])[3 + 1 + j]? = (patI.getD r [])[j]?)) :=
  ⟨⟨by decide, by decide, by decide, by decide⟩,
   combinePatterns_two_spec patH patI 3 3 (by decide) (by decide) (by decide) (by decide)⟩

/-- Reading a row below the truncation bound is unaffected by `take`. -/
theorem getD_take_of_lt (l : Grid) (r n : Nat) (h : r < n) :
    (l.take n).getD r [] = l.getD r [] := by
  rw [List.getD_eq_getElem?_getD, List.getD_eq_getElem?_getD, List.getElem?_take]
  simp [h]

/-- Row extraction from the parts array only ever reads the first 7 rows of
each letter. -/
theorem combineParts_map_take7 (row : Nat) (hr : row < 7) (gs : List Grid) :
    (combineParts (gs.map (fun g => g.take 7))).map (fun p => p.getD row []) =
      (combineParts gs).map (fun p => p.getD row []) := by
  cases gs with
  | nil => rfl
  | cons l ls =>
    simp only [List.map_cons, combineParts]
    congr 1
    · exact getD_take_of_lt l row 7 hr
    · induction ls with
      | nil => rfl
      | cons x xs ih =>
        simp only [List.flatMap_cons, List.map_append, List.map_cons, List.map_nil]
        rw [getD_take_of_lt x row 7 hr, ih]

/-- C7 counterexample: an 8-row input grid is accepted and silently
truncated — the combination of the 8-row grid equals the plain 7-row
truncation of the input, and no failure of any kind is signalled. -/
theorem combinePatterns_eight_rows_cex :
    (patH ++ [("###").toList]).length = 8 ∧
    combinePatterns [patH ++ [("###").toList]] =
      (patH ++ [("###").toList]).take 7 := by
  constructor
  · decide
  · decide

/-- C7 amended: `combinePatterns` does not make a row-count violation
explicit; it always returns a 7-row grid, silently ignoring every row of an
input beyond the first 7 (and treating missing rows as empty). -/
theorem combinePatterns_silent_truncation (gs : List Grid) :
    (combinePatterns gs).length = 7 ∧
    combinePatterns gs = combinePatterns (gs.map (fun g => g.take 7)) := by
  refine ⟨by simp [combinePatterns], ?_⟩
  unfold combinePatterns
  apply List.map_congr_left
  intro row hrow
  have hr7 : row < 7 := List.mem_range.1 hrow
  rw [combineParts_map_take7 row hr7 gs]

/-! ### Commit-day accounting -/

/-- Commit days after `makeCommit`: the old days plus the timestamp's day. -/
theorem makeCommit_authorDays (ts : Timestamp) (m : String) (st : RepoState) :
    (makeCommit ts m st).commits.map authorDay =
      st.commits.map authorDay ++ [ts.day] := by
  simp [makeCommit, authorDay]

/-- The formatted timestamp carries the requested calendar day. -/
theorem formatGitDate_day (g : Rng) (d : Nat) : (formatGitDate g d).1.day = d := rfl

/-- `formatGitDate` only advances the random source, never the stream. -/
theorem formatGitDate_stream (g : Rng) (d : Nat) :
    (formatGitDate g d).2.stream = g.stream := rfl

/-- `randomInt` only advances the random source, never the stream. -/
theorem randomInt_stream (g : Rng) (lo hi : ℤ) :
    (randomInt g lo hi).2.stream = g.stream := rfl

/-- With `min = max = k` and a valid stream, `randomInt` always returns `k`:
`Math.floor(r * 1) + k = k` for `0 ≤ r < 1`. -/
theorem randomInt_const (g : Rng) (k : ℤ)
    (h0 : 0 ≤ g.stream g.idx) (h1 : g.stream g.idx < 1) :
    (randomInt g k k).1 = k := by
  unfold randomInt Rng.next
  simp only
  have hone : ((k : ℚ) - (k : ℚ) + 1) = 1 := by ring
  rw [hone, mul_one]
  have hfl : ⌊g.stream g.idx⌋ = 0 :=
    Int.floor_eq_zero_iff.mpr (Set.mem_Ico.mpr ⟨h0, h1⟩)
  rw [hfl, zero_add]

/-- The pattern commit loop issues exactly `count` commits, all attributed to
the target day. -/
theorem patternCommitLoop_days (name : String) (target : Nat) :
    ∀ (count n : Nat) (g : Rng) (st : RepoState),
      ((patternCommitLoop name target count n g st).1).commits.map authorDay =
        st.commits.map authorDay ++ List.replicate count target := by
  intro count
  induction count with
  | zero =>
    intro n g st
    simp [patternCommitLoop]
  | succ k ih =>
    intro n g st
    rw [patternCommitLoop, ih, makeCommit_authorDays, formatGitDate_day,
      List.replicate_succ, List.append_assoc]
    rfl

/-- The fill commit loop issues exactly `count` commits, all attributed to
the given day. -/
theorem fillCommitLoop_days (day : Nat) :
    ∀ (count n : Nat) (g : Rng) (st : RepoState),
      ((fillCommitLoop day count n g st).1).commits.map authorDay =
        st.commits.map authorDay ++ List.replicate count day := by
  intro count
  induction count with
  | zero =>
    intro n g st
    simp [fillCommitLoop]
  | succ k ih =>
    intro n g st
    rw [fillCommitLoop, ih, makeCommit_authorDays, formatGitDate_day,
      List.replicate_succ, List.append_assoc]
    rfl

/-- The fill commit loop never changes the random stream. -/
theorem fillCommitLoop_stream (day : Nat) :
    ∀ (count n : Nat) (g : Rng) (st : RepoState),
      ((fillCommitLoop day count n g st).2).stream = g.stream := by
  intro count
  induction count with
  | zero =>
    intro n g st
    rfl
  | succ k ih =>
    intro n g st
    rw [fillCommitLoop, ih]
    rfl

/-- With `min = max = k` and a valid stream, the day loop of fill mode
issues exactly `k` commits on every listed day, in order. -/
theorem fillDays_const (k : ℤ) :
    ∀ (ds : List Nat) (g : Rng) (st : RepoState), ValidStream g.stream →
      ((fillDays k k ds g st).1).commits.map authorDay =
        st.commits.map authorDay ++
          ds.flatMap (fun d => List.replicate k.toNat d) := by
  intro ds
  induction ds with
  | nil =>
    intro g st _
    simp [fillDays]
  | cons d rest ih =>
    intro g st hv
    simp only [fillDays]
    have hnum : (randomInt g k k).1 = k := randomInt_const g k (hv g.idx).1 (hv g.idx).2
    have hstream :
        ((fillCommitLoop d (randomInt g k k).1.toNat 1 (randomInt g k k).2 st).2).stream
          = g.stream := by
      rw [fillCommitLoop_stream, randomInt_stream]
    rw [ih _ _ (by rw [hstream]; exact hv), fillCommitLoop_days, hnum,
      List.flatMap_cons, List.append_assoc]

/-- With `min = max = 0` and a valid stream, the day loop leaves the state
untouched. -/
theorem fillDays_zero :
    ∀ (ds : List Nat) (g : Rng) (st : RepoState), ValidStream g.stream →
      (fillDays 0 0 ds g st).1 = st := by
  intro ds
  induction ds with
  | nil =>
    intro g st _
    rfl
  | cons d rest ih =>
    intro g st hv
    simp only [fillDays]
    have hnum : (randomInt g 0 0).1 = 0 := randomInt_const g 0 (hv g.idx).1 (hv g.idx).2
    rw [hnum]
    have hstream : ((fillCommitLoop d (0 : ℤ).toNat 1 (randomInt g 0 0).2 st).2).stream
        = g.stream := by
      rw [fillCommitLoop_stream, randomInt_stream]
    exact ih _ _ (by rw [hstream]; exact hv)

/-- Total length of a per-day replication. -/
theorem length_flatMap_replicate (ds : List Nat) (n : Nat) :
    (ds.flatMap (fun d => List.replicate n d)).length = ds.length * n := by
  induction ds with
  | nil => simp
  | cons d rest ih =>
    rw [List.flatMap_cons, List.length_append, List.length_replicate, ih,
      List.length_cons]
    ring

/-- C3: with `MIN_COMMITS_PER_DAY = MAX_COMMITS_PER_DAY = k` (`k ≥ 0`) and a
valid random stream, fill mode commits exactly `k` times on every date of the
range, in range order; in particular with `k = 0` the repository state — the
activity file included — is unchanged. -/
theorem fill_mode_constant_density (cfg : Config) (k : ℤ) (g : Rng) (st : RepoState)
    (hmin : cfg.MIN_COMMITS_PER_DAY = k) (hmax : cfg.MAX_COMMITS_PER_DAY = k)
    (_hk : 0 ≤ k) (hg : ValidStream g.stream) :
    ((runFillMode cfg g st).1).commits.map authorDay =
      st.commits.map authorDay ++
        (dayRange cfg.START_DATE cfg.END_DATE).flatMap
          (fun d => List.replicate k.toNat d) ∧
    ((runFillMode cfg g st).1).commits.length =
      st.commits.length +
        (dayRange cfg.START_DATE cfg.END_DATE).length * k.toNat ∧
    (k = 0 → (runFillMode cfg g st).1 = st) := by
  have hmain : ((runFillMode cfg g st).1).commits.map authorDay =
      st.commits.map authorDay ++
        (dayRange cfg.START_DATE cfg.END_DATE).flatMap
          (fun d => List.replicate k.toNat d) := by
    unfold runFillMode
    rw [hmin, hmax]
    exact fillDays_const k _ g st hg
  refine ⟨hmain, ?_, ?_⟩
  · have hlen := congrArg List.length hmain
    rw [List.length_map, List.length_append, List.length_map,
      length_flatMap_replicate] at hlen
    exact hlen
  · intro hk0
    unfold runFillMode
    rw [hmin, hmax, hk0]
    exact fillDays_zero _ g st hg

/-- Witness for C3: range 3‥5 with `min = max = 2` and the constant
stream `1/2`. -/
theorem fill_mode_constant_density_witness :
    ((Config.mk 3 5 2 2 0 0).MIN_COMMITS_PER_DAY = 2 ∧
     (Config.mk 3 5 2 2 0 0).MAX_COMMITS_PER_DAY = 2 ∧
     (0 : ℤ) ≤ 2 ∧ ValidStream (Rng.mk (fun _ => 1/2) 0).stream) ∧
    (((runFillMode ⟨3, 5, 2, 2, 0, 0⟩ ⟨fun _ => 1/2, 0⟩ ⟨[], []⟩).1).commits.map authorDay =
        (RepoState.mk [] []).commits.map authorDay ++
          (dayRange (Config.mk 3 5 2 2 0 0).START_DATE
              (Config.mk 3 5 2 2 0 0).END_DATE).flatMap
            (fun d => List.replicate (2 : ℤ).toNat d) ∧
     ((runFillMode ⟨3, 5, 2, 2, 0, 0⟩ ⟨fun _ => 1/2, 0⟩ ⟨[], []⟩).1).commits.length =
        (RepoState.mk [] []).commits.length +
          (dayRange (Config.mk 3 5 2 2 0 0).START_DATE
              (Config.mk 3 5 2 2 0 0).END_DATE).length * (2 : ℤ).toNat ∧
     ((2 : ℤ) = 0 → (runFillMode ⟨3, 5, 2, 2, 0, 0⟩ ⟨fun _ => 1/2, 0⟩ ⟨[], []⟩).1 = ⟨[], []⟩)) :=
  ⟨⟨rfl, rfl, by decide, fun i => ⟨by norm_num, by norm_num⟩⟩,
   fill_mode_constant_density ⟨3, 5, 2, 2, 0, 0⟩ 2 ⟨fun _ => 1/2, 0⟩ ⟨[], []⟩
     rfl rfl (by decide) (fun i => ⟨by norm_num, by norm_num⟩)⟩

/-! ### Pattern mode accounting -/

/-- One cell of the pattern loops: `c` commits on `start + (week*7 + day)`
when the cell is lit, nothing otherwise. -/
theorem patternCellStep_days (name : String) (startD c : Nat) (pattern : Grid)
    (week day : Nat) (s : RepoState × Rng) :
    ((patternCellStep name startD c pattern week day s).1).commits.map authorDay =
      (s.1).commits.map authorDay ++
        (if cellChar pattern day week = '#'
         then List.replicate c (startD + (week * 7 + day)) else []) := by
  unfold patternCellStep
  by_cases h : cellChar pattern day week = '#'
  · rw [if_pos h, if_pos h]
    exact patternCommitLoop_days name _ c 0 s.2 s.1
  · rw [if_neg h, if_neg h, List.append_nil]

/-- The inner (weekday) loop of pattern mode, cell by cell. -/
theorem patternDayFold_days (name : String) (startD c : Nat) (pattern : Grid)
    (week : Nat) :
    ∀ (ds : List Nat) (s : RepoState × Rng),
      (((ds.foldl
          (fun s2 day => patternCellStep name startD c pattern week day s2)
          s).1).commits).map authorDay =
        (s.1).commits.map authorDay ++
          ds.flatMap (fun day =>
            if cellChar pattern day week = '#'
            then List.replicate c (startD + (week * 7 + day)) else []) := by
  intro ds
  induction ds with
  | nil =>
    intro s
    simp
  | cons d rest ih =>
    intro s
    rw [List.foldl_cons, ih, patternCellStep_days, List.flatMap_cons,
      List.append_assoc]

/-- The outer (week) loop of pattern mode, week by week. -/
theorem patternWeekFold_days (name : String) (startD c : Nat) (pattern : Grid) :
    ∀ (ws : List Nat) (s : RepoState × Rng),
      ((ws.foldl
          (fun s week => (List.range 7).foldl
            (fun s2 day => patternCellStep name startD c pattern week day s2) s)
          s).1).commits.map authorDay =
        (s.1).commits.map authorDay ++
          ws.flatMap (fun week => (List.range 7).flatMap (fun day =>
            if cellChar pattern day week = '#'
            then List.replicate c (startD + (week * 7 + day)) else [])) := by
  intro ws
  induction ws with
  | nil =>
    intro s
    simp
  | cons wk rest ih =>
    intro s
    rw [List.foldl_cons, ih, patternDayFold_days, List.flatMap_cons,
      List.append_assoc]

/-- The pattern loops realise exactly the planned per-cell commit days. -/
theorem runPatternLoops_days (name : String) (startD c : Nat) (pattern : Grid)
    (g : Rng) (st : RepoState) :
    ((runPatternLoops name startD c pattern g st).1).commits.map authorDay =
      st.commits.map authorDay ++ planDays pattern startD c := by
  unfold runPatternLoops planDays
  exact patternWeekFold_days name startD c pattern _ (st, g)

/-- Sum of a function mapped over `List.range` as a `Finset` sum. -/
theorem list_sum_map_range (f : Nat → Nat) (n : Nat) :
    ((List.range n).map f).sum = ∑ i ∈ Finset.range n, f i := by
  induction n with
  | zero => simp
  | succ k ih =>
    rw [List.range_succ, List.map_append, List.sum_append, Finset.sum_range_succ, ih]
    simp

/-- Counting lit positions of a row by index equals `List.count`. -/
theorem sum_indicator_count (l : List Char) :
    (∑ j ∈ Finset.range l.length, if l.getD j ' ' = '#' then 1 else 0) =
      l.count '#' := by
  induction l with
  | nil => simp
  | cons a t ih =>
    rw [List.length_cons, Finset.sum_range_succ']
    simp only [List.getD_cons_succ, List.getD_cons_zero]
    rw [ih, List.count_cons]
    simp [beq_iff_eq]

/-- Summing a row statistic over the 7 row indices equals summing it over
the row list. -/
theorem map_sum_getD (l : Grid) (f : List Char → Nat) :
    (l.map f).sum = ∑ i ∈ Finset.range l.length, f (l.getD i []) := by
  induction l with
  | nil => simp
  | cons a t ih =>
    rw [List.map_cons, List.sum_cons, List.length_cons, Finset.sum_range_succ']
    simp only [List.getD_cons_succ, List.getD_cons_zero]
    rw [ih]
    ring

/-- Under the grid invariant, the first row has the common width. -/
theorem pattern_headD_length (pattern : Grid) (w : Nat)
    (h7 : pattern.length = 7) (hw : ∀ r ∈ pattern, r.length = w) :
    (pattern.headD []).length = w := by
  cases pattern with
  | nil => simp at h7
  | cons r0 rest => exact hw r0 (List.mem_cons_self r0 rest)

/-- Under the grid invariant, every one of the 7 rows has the common width. -/
theorem pattern_getD_length (pattern : Grid) (w : Nat)
    (h7 : pattern.length = 7) (hw : ∀ r ∈ pattern, r.length = w)
    (d : Nat) (hd : d < 7) : (pattern.getD d []).length = w := by
  have hlt : d < pattern.length := by omega
  rw [List.getD_eq_getElem _ _ hlt]
  exact hw _ (List.getElem_mem hlt)

/-- The planned pattern commits number exactly `litCount × c`. -/
theorem planDays_length (pattern : Grid) (startD c w : Nat)
    (h7 : pattern.length = 7) (hw : ∀ r ∈ pattern, r.length = w) :
    (planDays pattern startD c).length = litCount pattern * c := by
  unfold planDays
  simp only [List.length_flatMap, Function.comp_def, apply_ite List.length,
    List.length_replicate, List.length_nil, list_sum_map_range]
  rw [pattern_headD_length pattern w h7 hw, Finset.sum_comm]
  have hinner : ∀ d ∈ Finset.range 7,
      (∑ week ∈ Finset.range w,
        if cellChar pattern d week = '#' then c else 0) =
        c * (pattern.getD d []).count '#' := by
    intro d hd
    rw [← sum_indicator_count (pattern.getD d []),
      pattern_getD_length pattern w h7 hw d (Finset.mem_range.1 hd),
      Finset.mul_sum]
    refine Finset.sum_congr rfl (fun j _ => ?_)
    simp [cellChar, mul_ite]
  rw [Finset.sum_congr rfl hinner, ← Finset.mul_sum]
  unfold litCount
  rw [map_sum_getD, h7]
  ring

/-- Occurrence counting distributes over `flatMap`. -/
theorem count_flatMap (l : List Nat) (f : Nat → List Nat) (x : Nat) :
    (l.flatMap f).count x = (l.map (fun a => (f a).count x)).sum := by
  induction l with
  | nil => simp
  | cons a t ih => simp [List.flatMap_cons, List.count_append, ih]

/-- Exactly `c` of the planned pattern commits fall on the date of any given
lit cell. -/
theorem planDays_count (pattern : Grid) (startD c w : Nat)
    (h7 : pattern.length = 7) (hw : ∀ r ∈ pattern, r.length = w)
    (week0 day0 : Nat) (hwk : week0 < w) (hd : day0 < 7)
    (hlit : cellChar pattern day0 week0 = '#') :
    (planDays pattern startD c).count (startD + (week0 * 7 + day0)) = c := by
  unfold planDays
  rw [count_flatMap]
  simp only [count_flatMap, list_sum_map_range, apply_ite
    (List.count (startD + (week0 * 7 + day0))), List.count_replicate,
    List.count_nil, beq_iff_eq]
  rw [pattern_headD_length pattern w h7 hw]
  rw [Finset.sum_eq_single_of_mem week0 (Finset.mem_range.mpr hwk)]
  · rw [Finset.sum_eq_single_of_mem day0 (Finset.mem_range.mpr hd)]
    · rw [if_pos hlit, if_pos rfl]
    · intro b hb hbne
      have hb7 : b < 7 := Finset.mem_range.1 hb
      have hneq : ¬ startD + (week0 * 7 + b) = startD + (week0 * 7 + day0) := by
        omega
      rw [if_neg hneq, ite_self]
  · intro b hb hbne
    refine Finset.sum_eq_zero (fun day hday => ?_)
    have hday7 : day < 7 := Finset.mem_range.1 hday
    have hneq : ¬ startD + (b * 7 + day) = startD + (week0 * 7 + day0) := by
      rcases Nat.lt_or_ge b week0 with hlt | hge
      · omega
      · have : week0 < b := by omega
        omega
    rw [if_neg hneq, ite_self]

/-- C2: for a 7-row pattern grid of uniform width with `L` lit cells and
commits-per-lit-cell `c`, pattern mode invokes the commit writer exactly
`L × c` times, and for every lit cell at column `week`, row `day`, exactly
`c` commits carry the calendar date `start + (7 × week + day)`. -/
theorem pattern_mode_commit_plan (name : String) (pattern : Grid)
    (startD c w : Nat) (g : Rng) (st : RepoState)
    (h7 : pattern.length = 7) (hw : ∀ r ∈ pattern, r.length = w) :
    ((runPatternLoops name startD c pattern g st).1).commits.length =
      st.commits.length + litCount pattern * c ∧
    (∀ week day, week < w → day < 7 → cellChar pattern day week = '#' →
      (((runPatternLoops name startD c pattern g st).1).commits.map authorDay).count
          (startD + (week * 7 + day)) =
        (st.commits.map authorDay).count (startD + (week * 7 + day)) + c) := by
  have hmain := runPatternLoops_days name startD c pattern g st
  constructor
  · have hlen := congrArg List.length hmain
    rw [List.length_map, List.length_append, List.length_map] at hlen
    rw [hlen, planDays_length pattern startD c w h7 hw]
  · intro week day hwk hd hlit
    rw [hmain, List.count_append,
      planDays_count pattern startD c w h7 hw week day hwk hd hlit]

/-- Witness for C2 on the `I` glyph (width 3, 11 lit cells), start day 10,
2 commits per lit cell. -/
theorem pattern_mode_commit_plan_witness :
    (patI.length = 7 ∧ ∀ r ∈ patI, r.length = 3) ∧
    (((runPatternLoops "I" 10 2 patI ⟨fun _ => 0, 0⟩ ⟨[], []⟩).1).commits.length =
        (RepoState.mk [] []).commits.length + litCount patI * 2 ∧
     (∀ week day, week < 3 → day < 7 → cellChar patI day week = '#' →
       (((runPatternLoops "I" 10 2 patI ⟨fun _ => 0, 0⟩ ⟨[], []⟩).1).commits.map
             authorDay).count (10 + (week * 7 + day)) =
         ((RepoState.mk [] []).commits.map authorDay).count (10 + (week * 7 + day)) + 2)) :=
  ⟨⟨by decide, by decide⟩,
   pattern_mode_commit_plan "I" patI 10 2 3 ⟨fun _ => 0, 0⟩ ⟨[], []⟩
     (by decide) (by decide)⟩

/-! ### Entry point and error paths -/

/-- C6 counterexample: with the configured range inverted (start 5, end 3)
the default (fill-mode) run completes normally — exit code 0 and an empty
stderr — instead of reporting an invalid date range and exiting non-zero. -/
theorem invalid_range_unreported_cex :
    (Config.mk 5 3 0 3 0 0).END_DATE < (Config.mk 5 3 0 3 0 0).START_DATE ∧
    mainRun ["node", "index.js"] ⟨5, 3, 0, 3, 0, 0⟩ ⟨fun _ => 0, 0⟩ ⟨[], []⟩ =
      { state := ⟨[], []⟩, exitCode := 0, stderr := [] } := by
  refine ⟨by decide, ?_⟩
  have hmode : modeOf ["node", "index.js"] = "fill" := by decide
  have hdr : dayRange 5 3 = [] := dayRange_nil 5 3 (by omega)
  simp only [mainRun, hmode, runFillMode, hdr, if_pos]
  rfl

/-- C6 amended: an inverted date range (start after end) is never detected:
the day sequencer yields the empty sequence, and a default (fill-mode) run
performs no commits and completes normally with exit code 0 and an empty
stderr. -/
theorem invalid_range_silent_completion (cfg : Config) (g : Rng) (st : RepoState)
    (argv : List String)
    (hinv : cfg.END_DATE < cfg.START_DATE)
    (hnoflag : argv.find? (fun a => jsStartsWith a "--mode") = none) :
    dayRange cfg.START_DATE cfg.END_DATE = [] ∧
    mainRun argv cfg g st = { state := st, exitCode := 0, stderr := [] } := by
  have hdr := dayRange_nil _ _ hinv
  refine ⟨hdr, ?_⟩
  have hmode : modeOf argv = "fill" := by
    unfold modeOf
    rw [hnoflag]
  simp only [mainRun, hmode, runFillMode, hdr, if_pos]
  rfl

/-- Witness for the amended C6 at a concrete inverted range. -/
theorem invalid_range_silent_completion_witness :
    ((Config.mk 9 4 0 3 0 0).END_DATE < (Config.mk 9 4 0 3 0 0).START_DATE ∧
     (["node", "index.js", "extra"].find? (fun a => jsStartsWith a "--mode")) = none) ∧
    (dayRange (Config.mk 9 4 0 3 0 0).START_DATE (Config.mk 9 4 0 3 0 0).END_DATE = [] ∧
     mainRun ["node", "index.js", "extra"] ⟨9, 4, 0, 3, 0, 0⟩ ⟨fun _ => 0, 0⟩ ⟨[], []⟩ =
       { state := ⟨[], []⟩, exitCode := 0, stderr := [] }) :=
  ⟨⟨by decide, by decide⟩,
   invalid_range_silent_completion ⟨9, 4, 0, 3, 0, 0⟩ ⟨fun _ => 0, 0⟩ ⟨[], []⟩
     ["node", "index.js", "extra"] (by decide) (by decide)⟩

/-- C9: for every argument vector whose resolved pattern name
(`(argv[3] || "HI").toUpperCase()`) is not a defined pattern, pattern mode
reports the unknown name and the listing of valid pattern names on stderr,
exits with code 1, and leaves the repository state — commits and activity
file — untouched. -/
theorem unknown_pattern_fails_fast (argv : List String) (cfg : Config)
    (g : Rng) (st : RepoState)
    (h : PATTERNS (jsToUpper (jsOr (jsGet argv 3) "HI")) = none) :
    runPatternMode argv cfg g st =
      { state := st, exitCode := 1
        stderr := ["Unknown pattern \"" ++ jsToUpper (jsOr (jsGet argv 3) "HI") ++ "\".",
                   "Available: " ++ String.intercalate ", " patternKeys] } := by
  unfold runPatternMode
  simp only [h]

/-- Witness for C9 with the undefined pattern name `X`. -/
theorem unknown_pattern_fails_fast_witness :
    PATTERNS (jsToUpper (jsOr (jsGet ["node", "index.js", "pattern", "X"] 3) "HI")) = none ∧
    runPatternMode ["node", "index.js", "pattern", "X"] ⟨0, 0, 0, 3, 0, 3⟩
        ⟨fun _ => 0, 0⟩ ⟨[], []⟩ =
      { state := ⟨[], []⟩, exitCode := 1
        stderr := ["Unknown pattern \"" ++
            jsToUpper (jsOr (jsGet ["node", "index.js", "pattern", "X"] 3) "HI") ++ "\".",
          "Available: " ++ String.intercalate ", " patternKeys] } :=
  ⟨by decide,
   unknown_pattern_fails_fast ["node", "index.js", "pattern", "X"] ⟨0, 0, 0, 3, 0, 3⟩
     ⟨fun _ => 0, 0⟩ ⟨[], []⟩ (by decide)⟩

/-- C8 counterexample: invoking pattern mode with no pattern-name argument
(`node index.js --mode pattern`) does not draw the `HI` grid: `argv[3]` is
the token `pattern` itself, which is looked up (as `PATTERN`) and rejected,
so the run exits 1 with an unknown-pattern error and an unchanged state. -/
theorem pattern_mode_no_arg_cex :
    mainRun ["/usr/bin/node", "index.js", "--mode", "pattern"] ⟨0, 0, 0, 3, 0, 3⟩
        ⟨fun _ => 0, 0⟩ ⟨[], []⟩ =
      { state := ⟨[], []⟩, exitCode := 1
        stderr := ["Unknown pattern \"PATTERN\".",
                   "Available: H, I, HEART, SMILE, HI"] } := by
  decide

/-- C8 amended: `argv[3]`, uppercased, selects the glyph grid, and the `HI`
default applies exactly when `argv[3]` is absent or empty; but under
`--mode pattern` the mode token's value `pattern` itself sits at `argv[3]`,
so invoking pattern mode with no pattern-name argument is rejected as the
unknown pattern `PATTERN` (exit 1) instead of drawing `HI`. -/
theorem pattern_name_selection (cfg : Config) (g : Rng) (st : RepoState) :
    (∀ argv, (jsGet argv 3 = none ∨ jsGet argv 3 = some "") →
      runPatternMode argv cfg g st =
        { state := (runPatternLoops "HI" cfg.PATTERN_START_DATE
            cfg.PATTERN_COMMITS patHI g st).1
          exitCode := 0, stderr := [] }) ∧
    (∀ argv s pat, jsGet argv 3 = some s → s ≠ "" →
      PATTERNS (jsToUpper s) = some pat →
      runPatternMode argv cfg g st =
        { state := (runPatternLoops (jsToUpper s) cfg.PATTERN_START_DATE
            cfg.PATTERN_COMMITS pat g st).1
          exitCode := 0, stderr := [] }) ∧
    (∀ p q, p ≠ "--mode" → q ≠ "--mode" →
      mainRun [p, q, "--mode", "pattern"] cfg g st =
        { state := st, exitCode := 1
          stderr := ["Unknown pattern \"PATTERN\".",
                     "Available: " ++ String.intercalate ", " patternKeys] }) := by
  refine ⟨?_, ?_, ?_⟩
  · intro argv h
    have hname : jsToUpper (jsOr (jsGet argv 3) "HI") = "HI" := by
      rcases h with h | h <;> rw [h] <;> rfl
    unfold runPatternMode
    simp only [hname]
    rfl
  · intro argv s pat hs hne hpat
    have hname : jsToUpper (jsOr (jsGet argv 3) "HI") = jsToUpper s := by
      rw [hs]
      simp [jsOr, hne]
    unfold runPatternMode
    simp only [hname, hpat]
  · intro p q hp hq
    have hfound : ∃ a, (List.find? (fun a => jsStartsWith a "--mode")
        [p, q, "--mode", "pattern"]) = some a := by
      apply Option.isSome_iff_exists.mp
      rw [List.find?_isSome]
      exact ⟨"--mode", by simp, by decide⟩
    obtain ⟨a, ha⟩ := hfound
    have hp' : (p == "--mode") = false := beq_eq_false_iff_ne.mpr hp
    have hq' : (q == "--mode") = false := beq_eq_false_iff_ne.mpr hq
    have hidx : jsIndexOf [p, q, "--mode", "pattern"] "--mode" = 2 := by
      unfold jsIndexOf
      rw [List.findIdx?_cons, hp', if_neg (by simp), List.findIdx?_cons, hq',
        if_neg (by simp), List.findIdx?_cons]
      simp
    have hmode : modeOf [p, q, "--mode", "pattern"] = "pattern" := by
      unfold modeOf
      rw [ha, hidx]
      rfl
    unfold mainRun
    simp only [hmode]
    simp only [if_true]
    rfl

/-- Witness for the amended C8: the default branch on a short argv, explicit
lower-case selection of `heart`, and the `--mode pattern` invocation. -/
theorem pattern_name_selection_witness :
    ((jsGet ["node", "index.js"] 3 = none ∨ jsGet ["node", "index.js"] 3 = some "") ∧
     runPatternMode ["node", "index.js"] ⟨0, 0, 0, 3, 0, 3⟩ ⟨fun _ => 0, 0⟩ ⟨[], []⟩ =
       { state := (runPatternLoops "HI" (Config.mk 0 0 0 3 0 3).PATTERN_START_DATE
           (Config.mk 0 0 0 3 0 3).PATTERN_COMMITS patHI ⟨fun _ => 0, 0⟩ ⟨[], []⟩).1
         exitCode := 0, stderr := [] }) ∧
    ((jsGet ["node", "index.js", "pattern", "heart"] 3 = some "heart") ∧
     ("heart" : String) ≠ "" ∧ PATTERNS (jsToUpper "heart") = some patHEART ∧
     runPatternMode ["node", "index.js", "pattern", "heart"] ⟨0, 0, 0, 3, 0, 3⟩
         ⟨fun _ => 0, 0⟩ ⟨[], []⟩ =
       { state := (runPatternLoops (jsToUpper "heart")
           (Config.mk 0 0 0 3 0 3).PATTERN_START_DATE
           (Config.mk 0 0 0 3 0 3).PATTERN_COMMITS patHEART ⟨fun _ => 0, 0⟩ ⟨[], []⟩).1
         exitCode := 0, stderr := [] }) ∧
    (("/usr/bin/node" : String) ≠ "--mode" ∧ ("index.js" : String) ≠ "--mode" ∧
     mainRun ["/usr/bin/node", "index.js", "--mode", "pattern"] ⟨0, 0, 0, 3, 0, 3⟩
         ⟨fun _ => 0, 0⟩ ⟨[], []⟩ =
       { state := ⟨[], []⟩, exitCode := 1
         stderr := ["Unknown pattern \"PATTERN\".",
                    "Available: " ++ String.intercalate ", " patternKeys] }) :=
  ⟨⟨Or.inl (by decide),
    (pattern_name_selection ⟨0, 0, 0, 3, 0, 3⟩ ⟨fun _ => 0, 0⟩ ⟨[], []⟩).1
      ["node", "index.js"] (Or.inl (by decide))⟩,
   ⟨by decide, by decide, by decide,
    (pattern_name_selection ⟨0, 0, 0, 3, 0, 3⟩ ⟨fun _ => 0, 0⟩ ⟨[], []⟩).2.1
      ["node", "index.js", "pattern", "heart"] "heart" patHEART
      (by decide) (by decide) (by decide)⟩,
   ⟨by decide, by decide,
    (pattern_name_selection ⟨0, 0, 0, 3, 0, 3⟩ ⟨fun _ => 0, 0⟩ ⟨[], []⟩).2.2
      "/usr/bin/node" "index.js" (by decide) (by decide)⟩⟩

/-- C10: when some argument starts with `--mode` but no argument equals
`--mode` exactly (e.g. the single-token form `--mode=pattern`),
`indexOf("--mode")` is `-1`, so the mode value is read from `argv[0]` — the
runtime executable path — whose lowercasing matches neither `fill` nor
`pattern`, and the run takes the unknown-mode error path, exiting 1. -/
theorem mode_flag_inexact_token (argv : List String) (p : String)
    (cfg : Config) (g : Rng) (st : RepoState)
    (hflag : ∃ a ∈ argv, jsStartsWith a "--mode" = true)
    (hnotok : "--mode" ∉ argv)
    (hhead : argv.head? = some p)
    (hne : p ≠ "") (hfill : jsToLower p ≠ "fill") (hpat : jsToLower p ≠ "pattern") :
    modeOf argv = jsToLower p ∧
    mainRun argv cfg g st =
      { state := st, exitCode := 1
        stderr := ["Unknown mode \"" ++ jsToLower p ++
          "\". Use \"fill\" or \"pattern\"."] } := by
  have hfound : ∃ a, (List.find? (fun a => jsStartsWith a "--mode") argv) = some a :=
    Option.isSome_iff_exists.mp (List.find?_isSome.mpr hflag)
  obtain ⟨a, ha⟩ := hfound
  have hidx : jsIndexOf argv "--mode" = -1 := by
    unfold jsIndexOf
    have hnone : argv.findIdx? (fun a => a == "--mode") = none :=
      List.findIdx?_eq_none_iff.mpr
        (fun x hx => beq_eq_false_iff_ne.mpr (fun he => hnotok (he ▸ hx)))
    rw [hnone]
  have hget : jsGet argv (jsIndexOf argv "--mode" + 1) = some p := by
    rw [hidx]
    unfold jsGet
    rw [if_neg (by omega)]
    rw [← hhead, List.head?_eq_getElem?]
    rfl
  have hmode : modeOf argv = jsToLower p := by
    unfold modeOf
    rw [ha, hget]
    simp [jsOr, hne]
  refine ⟨hmode, ?_⟩
  unfold mainRun
  simp only [hmode]
  rw [if_neg hfill, if_neg hpat]

/-- Witness for C10 at the single-token invocation `--mode=pattern`. -/
theorem mode_flag_inexact_token_witness :
    ((∃ a ∈ ["/usr/bin/node", "index.js", "--mode=pattern"],
        jsStartsWith a "--mode" = true) ∧
     ("--mode" ∉ ["/usr/bin/node", "index.js", "--mode=pattern"]) ∧
     (["/usr/bin/node", "index.js", "--mode=pattern"].head? = some "/usr/bin/node") ∧
     ("/usr/bin/node" : String) ≠ "" ∧
     jsToLower "/usr/bin/node" ≠ "fill" ∧ jsToLower "/usr/bin/node" ≠ "pattern") ∧
    (modeOf ["/usr/bin/node", "index.js", "--mode=pattern"] =
        jsToLower "/usr/bin/node" ∧
     mainRun ["/usr/bin/node", "index.js", "--mode=pattern"] ⟨0, 5, 0, 3, 0, 3⟩
         ⟨fun _ => 0, 0⟩ ⟨[], []⟩ =
       { state := ⟨[], []⟩, exitCode := 1
         stderr := ["Unknown mode \"" ++ jsToLower "/usr/bin/node" ++
           "\". Use \"fill\" or \"pattern\"."] }) :=
  ⟨⟨⟨"--mode=pattern", by decide, by decide⟩, by decide, by decide, by decide,
    by decide, by decide⟩,
   mode_flag_inexact_token ["/usr/bin/node", "index.js", "--mode=pattern"]
     "/usr/bin/node" ⟨0, 5, 0, 3, 0, 3⟩ ⟨fun _ => 0, 0⟩ ⟨[], []⟩
     ⟨"--mode=pattern", by decide, by decide⟩ (by decide) (by decide) (by decide)
     (by decide) (by decide)⟩
